import Mathlib

/-!
Verification development for the HealthChat dataset reconstruction script
(generate_artifacts.py).  The script joins per-conversation annotation
records with streamed source-corpus conversations and derives two review
tables.  This file gives a shallow embedding of its core logic:

  * loading the annotation index (load_annotations, lines 69-91),
  * the per-source streaming scan with a shrinking target-id set
    (main loop, lines 137-184),
  * the record merge (lines 140-143),
  * the full-review turn projection (lines 153-159), and
  * the sycophancy projection (lines 162-179),

and proves the stated properties about them.  Python dictionaries are
modelled as functions `String → Option V`, Python sets as `Finset String`,
Python list indexing (which accepts negative indices and raises IndexError
out of range) as `pyGet` returning `Option`, and code that can raise as
`Option`-valued functions where `none` means an uncaught exception.
-/

set_option maxHeartbeats 1000000

namespace HealthChat

/-- Configured version string (DATASET_VERSION in the script). -/
def DATASET_VERSION : String := "1.0.0"

/-- Known corpus tags: the keys of DATASET_MAPPING in the script. -/
def DATASET_SOURCES : List String := ["lmsys", "wildchat"]

/-- One conversation turn as the script consumes it: `turn.get('role')` and
`turn.get('content', '')`.  A missing role is representable as any string
different from the distinguished roles; a missing content is the empty
string, matching the script's default. -/
structure Turn where
  role : String
  content : String
deriving DecidableEq

/-- Default turn used with `List.getD` in theorem statements. -/
def defTurn : Turn := ⟨"", ""⟩

/-- One entry of `leading_question_classifications`: the referenced turn
index (`user_message_original_turn_index`) and the classification label. -/
structure LQItem where
  user_message_original_turn_index : Int
  classification : String
deriving DecidableEq

/-- One row of the full review CSV (line 158 of the script):
`[conv_id, web_url, specialty_str, turn_idx, role, message, tax_codes]`. -/
structure FullRow where
  conv_id : String
  web_url : String
  specialty : String
  turn_idx : Nat
  role : String
  message : String
  tax_codes : String
deriving DecidableEq

/-- One row of the sycophancy review CSV (lines 176-179 of the script):
`[conv_id, web_url, turn_index, prior_assistant_message, user_message,
lq_tax_codes, classification]`. -/
structure SycRow where
  conv_id : String
  web_url : String
  turn_index : Int
  prior : String
  user : String
  tax : String
  classification : String
deriving DecidableEq

/-- Annotation record as consumed by load_annotations: the two fields the
loader inspects (`conversation_id`, `dataset_source`, either possibly
missing) plus an opaque payload standing for the remaining fields. -/
structure AnnotRecord where
  conversation_id : Option String
  dataset_source : Option String
  payload : String
deriving DecidableEq

/-- Streamed source-corpus record: `source_record.get(id_field)` (possibly
missing) plus an opaque payload standing for the remaining fields. -/
structure SourceRecord where
  rid : Option String
  payload : String
deriving DecidableEq

/-- Python list indexing `xs[i]`: non-negative indices from the front,
negative indices from the back, `none` for an IndexError. -/
def pyGet {α : Type} (xs : List α) (i : Int) : Option α :=
  if 0 ≤ i then xs.get? i.toNat
  else if 0 ≤ i + (xs.length : Int) then xs.get? (i + (xs.length : Int)).toNat
  else none

/-- Code-point comparison of character lists, the order Python uses to
compare strings in `sorted`. -/
def charListLe : List Char → List Char → Bool
  | [], _ => true
  | _ :: _, [] => false
  | a :: as, b :: bs =>
    if a.toNat < b.toNat then true
    else if b.toNat < a.toNat then false
    else charListLe as bs

/-- String comparison by code points (Python `<=` on str). -/
def strLe (a b : String) : Bool := charListLe a.data b.data

/-- Insert a string into an ascending list (one step of `sorted`). -/
def insertSorted (x : String) : List String → List String
  | [] => [x]
  | y :: ys => if strLe x y then x :: y :: ys else y :: insertSorted x ys

/-- Ascending stable sort of a string list, modelling Python `sorted`. -/
def sortCodes : List String → List String
  | [] => []
  | x :: xs => insertSorted x (sortCodes xs)

/-- Line 153: `"; ".join(sorted(item.get('taxonomy_codes', [])))`. -/
def joinCodes (codes : List String) : String :=
  String.intercalate "; " (sortCodes codes)

/-- Line 153 together with the `.get(i, "")` lookups on lines 157 and 172:
`taxonomy_by_user_turn` maps ordinal `i` to the joined codes of taxonomy
entry `i`, and lookups of absent ordinals default to the empty string. -/
def taxonomyJoined (tax : List (List String)) (i : Nat) : String :=
  match tax.get? i with
  | some codes => joinCodes codes
  | none => ""

/-- Count of user-role turns in a conversation fragment. -/
def countUsers (conv : List Turn) : Nat :=
  conv.countP (fun t => decide (t.role = "user"))

/-- Lines 154-159: the full-review rows of one merged record, carrying the
turn index `tIdx` and the running user-turn ordinal `uIdx` exactly as the
script's `turn_idx` / `user_turn_idx` variables evolve. -/
def fullRowsAux (cid url spec : String) (tax : List (List String)) :
    Nat → Nat → List Turn → List FullRow
  | _, _, [] => []
  | tIdx, uIdx, turn :: rest =>
    { conv_id := cid, web_url := url, specialty := spec, turn_idx := tIdx,
      role := turn.role, message := turn.content,
      tax_codes := if turn.role = "user" then taxonomyJoined tax uIdx else "" } ::
    fullRowsAux cid url spec tax (tIdx + 1)
      (if turn.role = "user" then uIdx + 1 else uIdx) rest

/-- The full-review rows of one merged record (counters start at 0). -/
def fullReviewRows (cid url spec : String) (tax : List (List String))
    (conv : List Turn) : List FullRow :=
  fullRowsAux cid url spec tax 0 0 conv

/-- Lines 168-174: the independent re-scan deriving the taxonomy codes for
a referenced turn index.  `i` is the enumeration index, `c` the local
user-turn counter (`lq_user_turn_counter`); the result is the value of
`lq_tax_codes` after the loop. -/
def lqTaxScan (tax : List (List String)) (tIdx : Int) :
    Nat → Nat → List Turn → String
  | _, _, [] => ""
  | i, c, turn :: rest =>
    if turn.role = "user" then
      if (i : Int) = tIdx then taxonomyJoined tax c
      else lqTaxScan tax tIdx (i + 1) (c + 1) rest
    else lqTaxScan tax tIdx (i + 1) c rest

/-- Lines 165-179: build one sycophancy row for a qualifying entry.
`none` models the IndexError the script raises when a conversation lookup
is out of range.  The user-message lookup (line 166) substitutes the
sentinel only when `turn_index < len(conversation)` fails; the
prior-assistant lookup (line 167) is guarded only by `turn_index > 0`. -/
def mkSycRow (cid url : String) (tax : List (List String)) (conv : List Turn)
    (item : LQItem) : Option SycRow :=
  match (if item.user_message_original_turn_index < (conv.length : Int)
         then (pyGet conv item.user_message_original_turn_index).map Turn.content
         else some "TEXT NOT FOUND"),
        (if 0 < item.user_message_original_turn_index
         then (pyGet conv (item.user_message_original_turn_index - 1)).map Turn.content
         else some "") with
  | some userMsg, some priorMsg =>
    some { conv_id := cid, web_url := url,
           turn_index := item.user_message_original_turn_index,
           prior := priorMsg, user := userMsg,
           tax := lqTaxScan tax item.user_message_original_turn_index 0 0 conv,
           classification := item.classification }
  | _, _ => none

/-- Sequential `Option`-valued map: each element is processed in order and
any failure aborts the whole projection, modelling an uncaught exception
inside the row loop. -/
def optionMapM {α β : Type} (f : α → Option β) : List α → Option (List β)
  | [] => some []
  | a :: l =>
    match f a, optionMapM f l with
    | some b, some bs => some (b :: bs)
    | _, _ => none

/-- Lines 162-179: the sycophancy rows of one merged record.  `none` for
the list models an absent key or a None value (line 162's truthiness check
also skips an empty list, which produces the same `some []` result); rows
are built only for entries whose classification differs from "N". -/
def sycRows (cid url : String) (tax : List (List String)) (conv : List Turn)
    (lqs : Option (List LQItem)) : Option (List SycRow) :=
  match lqs with
  | none => some []
  | some items =>
    optionMapM (mkSycRow cid url tax conv)
      (items.filter (fun it => decide (it.classification ≠ "N")))

/-- Python dict assignment `d[k] = v` on a dict modelled as a lookup
function. -/
def dictSet {V : Type} (d : String → Option V) (k : String) (v : V) :
    String → Option V :=
  fun q => if q = k then some v else d q

/-- Python `d.update(e)`: keys of `e` win, other keys keep `d`'s value. -/
def dictUpdate {V : Type} (d e : String → Option V) : String → Option V :=
  fun q => match e q with
    | some v => some v
    | none => d q

/-- Lines 140-143: `final_record = source_record.copy()`, then
`final_record.update(annotation_data)`, then
`final_record['dataset_version'] = DATASET_VERSION`. -/
def mergeRecord {V : Type} (src ann : String → Option V) (version : V) :
    String → Option V :=
  dictSet (dictUpdate src ann) "dataset_version" version

/-- Lines 137-184: stream scan of one source.  A record matches when its
id field is a string contained in the still-to-find set; on a match the
record is emitted, its id removed, and the scan stops as soon as the set
becomes empty.  Returns the matched records in stream order and the final
target set. -/
def scanSource : Finset String → List SourceRecord → List SourceRecord × Finset String
  | targets, [] => ([], targets)
  | targets, r :: rs =>
    match r.rid with
    | none => scanSource targets rs
    | some x =>
      if x ∈ targets then
        if targets.erase x = (∅ : Finset String) then ([r], targets.erase x)
        else ((r :: (scanSource (targets.erase x) rs).1), (scanSource (targets.erase x) rs).2)
      else scanSource targets rs

/-- Lines 77-82: processing of one annotation record.  The record is kept
iff `conversation_id` is present and truthy (non-empty) and
`dataset_source` is a known corpus tag; kept records are stored under
their id (later records overwrite earlier ones) and their id is added to
the source's target set. -/
def storeAnnot (acc : (String → Option AnnotRecord) × (String → Finset String))
    (a : AnnotRecord) : (String → Option AnnotRecord) × (String → Finset String) :=
  match a.conversation_id, a.dataset_source with
  | some cid, some src =>
    if cid ≠ "" ∧ src ∈ DATASET_SOURCES then
      (fun q => if q = cid then some a else acc.1 q,
       fun s => if s = src then insert cid (acc.2 s) else acc.2 s)
    else acc
  | some _, none => acc
  | none, _ => acc

/-- Fold of storeAnnot over the annotation stream, in order. -/
def loadAnnotsAux :
    (String → Option AnnotRecord) × (String → Finset String) →
    List AnnotRecord → (String → Option AnnotRecord) × (String → Finset String)
  | acc, [] => acc
  | acc, a :: rest => loadAnnotsAux (storeAnnot acc a) rest

/-- Lines 69-91: build `annotations_by_id` and `target_ids_by_source`
from the annotation stream, starting from the empty index and empty
per-source sets (defaultdict(set)). -/
def loadAnnots (es : List AnnotRecord) :
    (String → Option AnnotRecord) × (String → Finset String) :=
  loadAnnotsAux (fun _ => none, fun _ => (∅ : Finset String)) es

/-- Example conversation from the specification's worked example. -/
def convEx : List Turn :=
  [⟨"user", "hi"⟩, ⟨"assistant", "hello"⟩, ⟨"user", "am I dying?"⟩]

/-- Example taxonomy sequence from the specification's worked example. -/
def taxEx : List (List String) := [["B", "A"]]

/-- Example source record lookup (a record carrying a dataset_version
field), used for C4. -/
def srcEx : String → Option String := fun k => if k = "dataset_version" then some "0.9" else none

/-- Example annotation record lookup with no fields, used for C4. -/
def annEx : String → Option String := fun _ => none

/-- Example records for the scan witnesses: two records sharing the id "a"
and one with id "b". -/
def exR1 : SourceRecord := ⟨some "a", "p1"⟩

/-- Second record with the duplicate id "a". -/
def exR2 : SourceRecord := ⟨some "a", "p2"⟩

/-- Record with id "b". -/
def exR3 : SourceRecord := ⟨some "b", "p3"⟩

lemma get?_eq_getD {α : Type} (l : List α) (n : Nat) (d : α) (h : n < l.length) :
    l.get? n = some (l.getD n d) := by
  rw [List.getD_eq_getElem?_getD, List.get?_eq_getElem?, List.getElem?_eq_getElem h]
  rfl

lemma fullRowsAux_get? (cid url spec : String) (tax : List (List String)) :
    ∀ (conv : List Turn) (tIdx uIdx j : Nat), j < conv.length →
      (fullRowsAux cid url spec tax tIdx uIdx conv).get? j =
        some { conv_id := cid, web_url := url, specialty := spec,
               turn_idx := tIdx + j,
               role := (conv.getD j defTurn).role,
               message := (conv.getD j defTurn).content,
               tax_codes := if (conv.getD j defTurn).role = "user"
                            then taxonomyJoined tax (uIdx + countUsers (conv.take j))
                            else "" } := by
  intro conv
  induction conv with
  | nil => intro tIdx uIdx j hj; simp at hj
  | cons turn rest ih =>
    intro tIdx uIdx j hj
    cases j with
    | zero =>
      simp [fullRowsAux, countUsers]
    | succ j =>
      have hjr : j < rest.length := by simpa using hj
      have hrec := ih (tIdx + 1) (if turn.role = "user" then uIdx + 1 else uIdx) j hjr
      have harg : (if turn.role = "user" then uIdx + 1 else uIdx) + countUsers (List.take j rest)
          = uIdx + countUsers (turn :: List.take j rest) := by
        by_cases hu : turn.role = "user"
        · simp [countUsers, List.countP_cons, hu]
          omega
        · simp [countUsers, List.countP_cons, hu]
      have htidx : tIdx + 1 + j = tIdx + (j + 1) := by omega
      rw [htidx, harg] at hrec
      simpa [fullRowsAux, List.take_succ_cons] using hrec

lemma lqTaxScan_user (tax : List (List String)) :
    ∀ (conv : List Turn) (t i c : Nat), t < conv.length →
      (conv.getD t defTurn).role = "user" →
      lqTaxScan tax ((i + t : Nat) : Int) i c conv =
        taxonomyJoined tax (c + countUsers (conv.take t)) := by
  intro conv
  induction conv with
  | nil => intro t i c ht _; simp at ht
  | cons turn rest ih =>
    intro t i c ht hrole
    cases t with
    | zero =>
      have hu : turn.role = "user" := by simpa using hrole
      simp [lqTaxScan, hu, countUsers]
    | succ t =>
      have htr : t < rest.length := by simpa using ht
      have hroler : (rest.getD t defTurn).role = "user" := by simpa using hrole
      have hcnt : countUsers (List.take (t + 1) (turn :: rest))
          = countUsers (List.take t rest) + (if turn.role = "user" then 1 else 0) := by
        by_cases hu : turn.role = "user" <;>
          simp [List.take_succ_cons, countUsers, List.countP_cons, hu]
      by_cases hu : turn.role = "user"
      · have hne : ¬ ((i : Int) = ((i + (t + 1) : Nat) : Int)) := by push_cast; omega
        have hrec := ih t (i + 1) (c + 1) htr hroler
        have hcast : (((i + 1) + t : Nat) : Int) = ((i + (t + 1) : Nat) : Int) := by
          push_cast; omega
        rw [hcast] at hrec
        rw [show lqTaxScan tax ((i + (t + 1) : Nat) : Int) i c (turn :: rest)
              = lqTaxScan tax ((i + (t + 1) : Nat) : Int) (i + 1) (c + 1) rest by
            simp only [lqTaxScan]; rw [if_pos hu, if_neg hne]]
        rw [hrec, hcnt, hu]
        simp
        congr 1
        omega
      · have hrec := ih t (i + 1) c htr hroler
        have hcast : (((i + 1) + t : Nat) : Int) = ((i + (t + 1) : Nat) : Int) := by
          push_cast; omega
        rw [hcast] at hrec
        rw [show lqTaxScan tax ((i + (t + 1) : Nat) : Int) i c (turn :: rest)
              = lqTaxScan tax ((i + (t + 1) : Nat) : Int) (i + 1) c rest by
            simp [lqTaxScan, hu]]
        rw [hrec, hcnt, if_neg hu]
        simp

lemma lqTaxScan_no_hit (tax : List (List String)) (tIdx : Int) :
    ∀ (conv : List Turn) (i c : Nat),
      (∀ j, j < conv.length → ((i + j : Nat) : Int) = tIdx →
        (conv.getD j defTurn).role ≠ "user") →
      lqTaxScan tax tIdx i c conv = "" := by
  intro conv
  induction conv with
  | nil => intro i c _; rfl
  | cons turn rest ih =>
    intro i c hno
    by_cases hu : turn.role = "user"
    · have hne : ¬ ((i : Int) = tIdx) := by
        intro he
        exact hno 0 (by simp) (by simpa using he) (by simpa using hu)
      rw [show lqTaxScan tax tIdx i c (turn :: rest)
            = lqTaxScan tax tIdx (i + 1) (c + 1) rest by simp [lqTaxScan, hu, hne]]
      exact ih (i + 1) (c + 1) (fun j hj he => by
        have h2 : ((i + (j + 1) : Nat) : Int) = tIdx := by push_cast at he ⊢; omega
        have := hno (j + 1) (by simpa using hj) h2
        simpa using this)
    · rw [show lqTaxScan tax tIdx i c (turn :: rest)
            = lqTaxScan tax tIdx (i + 1) c rest by simp [lqTaxScan, hu]]
      exact ih (i + 1) c (fun j hj he => by
        have h2 : ((i + (j + 1) : Nat) : Int) = tIdx := by push_cast at he ⊢; omega
        have := hno (j + 1) (by simpa using hj) h2
        simpa using this)

lemma mkSycRow_some (cid url : String) (tax : List (List String)) (conv : List Turn)
    (item : LQItem) (h0 : 0 ≤ item.user_message_original_turn_index)
    (hle : item.user_message_original_turn_index ≤ (conv.length : Int)) :
    mkSycRow cid url tax conv item =
      some { conv_id := cid, web_url := url,
             turn_index := item.user_message_original_turn_index,
             prior := if 0 < item.user_message_original_turn_index
                      then (conv.getD (item.user_message_original_turn_index.toNat - 1) defTurn).content
                      else "",
             user := if item.user_message_original_turn_index < (conv.length : Int)
                     then (conv.getD item.user_message_original_turn_index.toNat defTurn).content
                     else "TEXT NOT FOUND",
             tax := lqTaxScan tax item.user_message_original_turn_index 0 0 conv,
             classification := item.classification } := by
  have huser : (if item.user_message_original_turn_index < (conv.length : Int)
                then (pyGet conv item.user_message_original_turn_index).map Turn.content
                else some "TEXT NOT FOUND")
      = some (if item.user_message_original_turn_index < (conv.length : Int)
              then (conv.getD item.user_message_original_turn_index.toNat defTurn).content
              else "TEXT NOT FOUND") := by
    by_cases hlt : item.user_message_original_turn_index < (conv.length : Int)
    · have hn : item.user_message_original_turn_index.toNat < conv.length := by omega
      rw [if_pos hlt, if_pos hlt, pyGet, if_pos h0,
        get?_eq_getD conv item.user_message_original_turn_index.toNat defTurn hn]
      rfl
    · rw [if_neg hlt, if_neg hlt]
  have hprior : (if 0 < item.user_message_original_turn_index
                 then (pyGet conv (item.user_message_original_turn_index - 1)).map Turn.content
                 else some "")
      = some (if 0 < item.user_message_original_turn_index
              then (conv.getD (item.user_message_original_turn_index.toNat - 1) defTurn).content
              else "") := by
    by_cases hpos : 0 < item.user_message_original_turn_index
    · have hz : 0 ≤ item.user_message_original_turn_index - 1 := by omega
      have hn : (item.user_message_original_turn_index - 1).toNat < conv.length := by omega
      have heq : (item.user_message_original_turn_index - 1).toNat
          = item.user_message_original_turn_index.toNat - 1 := by omega
      rw [if_pos hpos, if_pos hpos, pyGet, if_pos hz,
        get?_eq_getD conv (item.user_message_original_turn_index - 1).toNat defTurn hn, heq]
      rfl
    · rw [if_neg hpos, if_neg hpos]
  simp only [mkSycRow]
  rw [huser, hprior]

/-- Claim C1 (code bug): the script is meant to substitute sentinel text for
any out-of-bounds referenced turn index without raising, but for a turn index
exceeding the conversation length by more than one turn the prior-assistant
lookup `conversation[turn_index - 1]` (line 167) is unguarded and raises
IndexError.  Concretely, with a one-turn conversation and referenced turn
index 2 the projection of the entry fails (`none`). -/
theorem c1_prior_lookup_crash :
    mkSycRow "c" "u" [] [⟨"user", "hi"⟩] ⟨2, "Y"⟩ = none := by decide

/-- Claim C2 (counterexample): for the qualifying entry with referenced turn
index -1 on a one-turn conversation, the index is outside the conversation
bounds, yet the emitted user message text is the conversation's last turn
content "hi", not the "not found" sentinel: Python negative indexing reads
from the back instead of substituting. -/
theorem c2_counterexample :
    ¬ ((0 : Int) ≤ -1) ∧
    (mkSycRow "c" "u" [] [⟨"user", "hi"⟩] ⟨-1, "Y"⟩).map SycRow.user = some "hi" ∧
    ("hi" : String) ≠ "TEXT NOT FOUND" := by decide

/-- Claim C2 (amended): for every qualifying leading-question entry whose
referenced turn index t satisfies 0 ≤ t ≤ conversation length, the emitted
user message text equals conversation turn t's content when t is within the
conversation's bounds and equals the "not found" sentinel otherwise, and the
emitted prior assistant text equals conversation turn t-1's content when
t > 0 and equals the empty string when t = 0.  (Outside that range the claim
fails: negative indices read from the back of the conversation, and indices
above length + 1 make the projection raise, see C1.) -/
theorem c2_sentinel_and_prior_text (cid url : String) (tax : List (List String))
    (conv : List Turn) (item : LQItem)
    (h0 : 0 ≤ item.user_message_original_turn_index)
    (hle : item.user_message_original_turn_index ≤ (conv.length : Int)) :
    (mkSycRow cid url tax conv item).map SycRow.user =
      some (if item.user_message_original_turn_index < (conv.length : Int)
            then (conv.getD item.user_message_original_turn_index.toNat defTurn).content
            else "TEXT NOT FOUND") ∧
    (mkSycRow cid url tax conv item).map SycRow.prior =
      some (if 0 < item.user_message_original_turn_index
            then (conv.getD (item.user_message_original_turn_index.toNat - 1) defTurn).content
            else "") := by
  rw [mkSycRow_some cid url tax conv item h0 hle]
  exact ⟨rfl, rfl⟩

/-- Claim C2 witness: instantiation at the specification's worked example
with referenced turn index 3 (equal to the conversation length, hence out of
bounds): the user text is the sentinel and the prior text is turn 2's
content. -/
theorem c2_witness :
    (mkSycRow "abc" "u" taxEx convEx ⟨3, "Y"⟩).map SycRow.user = some "TEXT NOT FOUND" ∧
    (mkSycRow "abc" "u" taxEx convEx ⟨3, "Y"⟩).map SycRow.prior = some "am I dying?" := by
  have h := c2_sentinel_and_prior_text "abc" "u" taxEx convEx ⟨3, "Y"⟩ (by decide) (by decide)
  exact ⟨h.1.trans (by decide), h.2.trans (by decide)⟩

/-- Claim C3: in every full-review row, the user-role turn at user-turn
ordinal i (counting only user-role turns in conversation order) carries the
sorted, "; "-joined codes of the taxonomy sequence's entry i, or the empty
string when the sequence has no entry i; every non-user-role turn carries an
empty taxonomy field. -/
theorem c3_full_review_taxonomy (cid url spec : String) (tax : List (List String))
    (conv : List Turn) (j : Nat) (hj : j < conv.length) :
    ((fullReviewRows cid url spec tax conv).get? j).map FullRow.tax_codes =
      some (if (conv.getD j defTurn).role = "user"
            then match tax.get? (countUsers (conv.take j)) with
                 | some codes => joinCodes codes
                 | none => ""
            else "") := by
  rw [fullReviewRows, fullRowsAux_get? cid url spec tax conv 0 0 j hj]
  simp [taxonomyJoined]

/-- Claim C3 witness: at the specification's worked example, the first turn
(user ordinal 0) carries "A; B" (the sorted join of taxonomy entry 0), the
assistant turn carries the empty string, and the second user turn (ordinal 1,
beyond the taxonomy sequence) carries the empty string. -/
theorem c3_witness :
    ((fullReviewRows "abc" "u" "Cardiology" taxEx convEx).get? 0).map FullRow.tax_codes
      = some "A; B" ∧
    ((fullReviewRows "abc" "u" "Cardiology" taxEx convEx).get? 1).map FullRow.tax_codes
      = some "" ∧
    ((fullReviewRows "abc" "u" "Cardiology" taxEx convEx).get? 2).map FullRow.tax_codes
      = some "" :=
  ⟨(c3_full_review_taxonomy "abc" "u" "Cardiology" taxEx convEx 0 (by decide)).trans (by decide),
   (c3_full_review_taxonomy "abc" "u" "Cardiology" taxEx convEx 1 (by decide)).trans (by decide),
   (c3_full_review_taxonomy "abc" "u" "Cardiology" taxEx convEx 2 (by decide)).trans (by decide)⟩

/-- Claim C5: for a referenced turn index t within the conversation's bounds
naming a user-role turn, the taxonomy codes derived by the sycophancy
projection's independent re-scan equal the taxonomy codes in the full-review
row for turn t derived from the running user-turn counter: the two
derivations agree. -/
theorem c5_two_derivations_agree (cid url spec : String) (tax : List (List String))
    (conv : List Turn) (t : Nat) (ht : t < conv.length)
    (hrole : (conv.getD t defTurn).role = "user") :
    ((fullReviewRows cid url spec tax conv).get? t).map FullRow.tax_codes =
      some (lqTaxScan tax (t : Int) 0 0 conv) := by
  have h1 := fullRowsAux_get? cid url spec tax conv 0 0 t ht
  have h2 := lqTaxScan_user tax conv t 0 0 ht hrole
  rw [fullReviewRows, h1]
  simp only [Option.map_some']
  rw [if_pos hrole]
  simpa using h2.symm

/-- Claim C5 witness: at the specification's worked example, for referenced
turn index 2 (a user turn), the re-scan result equals the full-review row's
taxonomy field (both the empty string, ordinal 1 having no taxonomy entry). -/
theorem c5_witness :
    ((fullReviewRows "abc" "u" "Cardiology" taxEx convEx).get? 2).map FullRow.tax_codes =
      some (lqTaxScan taxEx (2 : Int) 0 0 convEx) :=
  c5_two_derivations_agree "abc" "u" "Cardiology" taxEx convEx 2 (by decide) (by decide)

/-- Claim C9: for a qualifying entry whose referenced turn index is within
the conversation's bounds but names a turn whose role is not "user", the
emitted sycophancy row's taxonomy-codes field is the empty string: the
re-scan only stops inside user-role turns, so it never matches the index. -/
theorem c9_non_user_turn_empty_tax (cid url : String) (tax : List (List String))
    (conv : List Turn) (item : LQItem)
    (h0 : 0 ≤ item.user_message_original_turn_index)
    (hlt : item.user_message_original_turn_index < (conv.length : Int))
    (hrole : (conv.getD item.user_message_original_turn_index.toNat defTurn).role ≠ "user") :
    (mkSycRow cid url tax conv item).map SycRow.tax = some "" := by
  rw [mkSycRow_some cid url tax conv item h0 (le_of_lt hlt)]
  simp only [Option.map_some']
  congr 1
  apply lqTaxScan_no_hit
  intro j hj he
  have hjt : j = item.user_message_original_turn_index.toNat := by
    push_cast at he; omega
  rw [hjt]
  exact hrole

/-- Claim C9 witness: at the specification's worked example, the entry with
referenced turn index 1 (the assistant turn) yields a row whose taxonomy
field is empty. -/
theorem c9_witness :
    (mkSycRow "abc" "u" taxEx convEx ⟨1, "Y"⟩).map SycRow.tax = some "" :=
  c9_non_user_turn_empty_tax "abc" "u" taxEx convEx ⟨1, "Y"⟩ (by decide) (by decide) (by decide)

/-- Claim C4 (counterexample): a matched source record carrying a
dataset_version field absent from the annotation record is altered by the
merge: the merged value is the configured version string, not the source
value, so not every source-record field absent from the annotation record
is left unaltered. -/
theorem c4_counterexample :
    srcEx "dataset_version" = some "0.9" ∧
    annEx "dataset_version" = none ∧
    mergeRecord srcEx annEx DATASET_VERSION "dataset_version" = some "1.0.0" ∧
    ("1.0.0" : String) ≠ "0.9" := by
  refine ⟨rfl, rfl, rfl, by decide⟩

/-- Claim C4 (amended): the merged record's field set is the union of the
source record's and the annotation record's fields plus dataset_version;
dataset_version equals the configured version string regardless of either
record; and on every other key the annotation record's value is taken when
present, while source-record fields absent from the annotation record are
unaltered. -/
theorem c4_merge_fields {V : Type} (src ann : String → Option V) (version : V) (k : String) :
    mergeRecord src ann version "dataset_version" = some version ∧
    (k ≠ "dataset_version" →
      mergeRecord src ann version k =
        match ann k with
        | some v => some v
        | none => src k) ∧
    ((mergeRecord src ann version k).isSome ↔
      (src k).isSome ∨ (ann k).isSome ∨ k = "dataset_version") := by
  refine ⟨rfl, ?_, ?_⟩
  · intro hk
    simp [mergeRecord, dictSet, dictUpdate, hk]
  · by_cases hk : k = "dataset_version"
    · simp [mergeRecord, dictSet, dictUpdate, hk]
    · simp only [mergeRecord, dictSet, dictUpdate, if_neg hk]
      cases ann k <;> cases src k <;> simp [hk]

/-- Claim C4 witness: at the example records, dataset_version is stamped
with the configured version, and a key absent from both records stays
absent (the union contains no extra fields). -/
theorem c4_witness :
    mergeRecord srcEx annEx DATASET_VERSION "dataset_version" = some DATASET_VERSION ∧
    mergeRecord srcEx annEx DATASET_VERSION "web_url" = srcEx "web_url" :=
  ⟨(c4_merge_fields srcEx annEx DATASET_VERSION "web_url").1,
   ((c4_merge_fields srcEx annEx DATASET_VERSION "web_url").2.1 (by decide)).trans (by decide)⟩

lemma optionMapM_corr {α β γ : Type} (f : α → Option β) (g : β → γ) (h : α → γ)
    (hfg : ∀ a b, f a = some b → g b = h a) :
    ∀ (l : List α) (rows : List β), optionMapM f l = some rows →
      rows.map g = l.map h ∧ rows.length = l.length := by
  intro l
  induction l with
  | nil =>
    intro rows hr
    simp only [optionMapM, Option.some.injEq] at hr
    subst hr
    simp
  | cons a l ih =>
    intro rows hr
    simp only [optionMapM] at hr
    cases hfa : f a with
    | none => rw [hfa] at hr; simp at hr
    | some b =>
      cases hml : optionMapM f l with
      | none => rw [hfa, hml] at hr; simp at hr
      | some bs =>
        rw [hfa, hml] at hr
        simp only [Option.some.injEq] at hr
        subst hr
        have hrec := ih bs hml
        simp [hfg a b hfa, hrec.1, hrec.2]

lemma mkSycRow_fields (cid url : String) (tax : List (List String)) (conv : List Turn)
    (item : LQItem) (row : SycRow) (h : mkSycRow cid url tax conv item = some row) :
    row.classification = item.classification ∧
    row.turn_index = item.user_message_original_turn_index := by
  simp only [mkSycRow] at h
  cases hu : (if item.user_message_original_turn_index < (conv.length : Int)
              then (pyGet conv item.user_message_original_turn_index).map Turn.content
              else some "TEXT NOT FOUND") with
  | none => rw [hu] at h; simp at h
  | some u =>
    cases hp : (if 0 < item.user_message_original_turn_index
                then (pyGet conv (item.user_message_original_turn_index - 1)).map Turn.content
                else some "") with
    | none => rw [hu, hp] at h; simp at h
    | some p =>
      rw [hu, hp] at h
      simp only [Option.some.injEq] at h
      subst h
      exact ⟨rfl, rfl⟩

/-- Claim C8: a sycophancy row is emitted exactly for the leading-question
entries whose classification differs from the neutral sentinel "N": when the
list is absent or None (modelled as `none`) or empty, zero rows result, and
whenever the projection produces rows, the rows correspond one-to-one, in
order, to the non-neutral entries (same classification labels, same count). -/
theorem c8_rows_iff_non_neutral (cid url : String) (tax : List (List String))
    (conv : List Turn) (lqs : Option (List LQItem)) :
    sycRows cid url tax conv none = some [] ∧
    sycRows cid url tax conv (some []) = some [] ∧
    (∀ rows, sycRows cid url tax conv lqs = some rows →
      rows.map SycRow.classification =
        ((lqs.getD []).filter (fun it => decide (it.classification ≠ "N"))).map
          LQItem.classification ∧
      rows.length = (lqs.getD []).countP (fun it => decide (it.classification ≠ "N"))) := by
  refine ⟨rfl, rfl, ?_⟩
  intro rows hr
  cases lqs with
  | none =>
    simp only [sycRows, Option.some.injEq] at hr
    subst hr
    simp
  | some items =>
    simp only [sycRows] at hr
    have hcorr := optionMapM_corr (mkSycRow cid url tax conv) SycRow.classification
      LQItem.classification
      (fun a b hab => (mkSycRow_fields cid url tax conv a b hab).1)
      (items.filter (fun it => decide (it.classification ≠ "N"))) rows hr
    refine ⟨by simpa using hcorr.1, ?_⟩
    rw [hcorr.2]
    simp [List.countP_eq_length_filter]

/-- Claim C8 witness: at the specification's worked example with entries
classified "Y" (index 2) and "N" (index 0), the projection with an absent
list yields zero rows, and the concrete single produced row corresponds
exactly to the one non-neutral entry. -/
theorem c8_witness :
    sycRows "abc" "u" taxEx convEx none = some [] ∧
    ([⟨"abc", "u", 2, "hello", "am I dying?", "", "Y"⟩] : List SycRow).map SycRow.classification =
      (((some [⟨2, "Y"⟩, ⟨0, "N"⟩] : Option (List LQItem)).getD []).filter
        (fun it => decide (it.classification ≠ "N"))).map LQItem.classification :=
  ⟨(c8_rows_iff_non_neutral "abc" "u" taxEx convEx (some [⟨2, "Y"⟩, ⟨0, "N"⟩])).1,
   ((c8_rows_iff_non_neutral "abc" "u" taxEx convEx (some [⟨2, "Y"⟩, ⟨0, "N"⟩])).2.2
      [⟨"abc", "u", 2, "hello", "am I dying?", "", "Y"⟩] (by decide)).1⟩

lemma scan_mem_rid : ∀ (s : List SourceRecord) (t : Finset String) (r : SourceRecord),
    r ∈ (scanSource t s).1 → ∃ y, r.rid = some y ∧ y ∈ t := by
  intro s
  induction s with
  | nil => intro t r hr; simp [scanSource] at hr
  | cons q rs ih =>
    intro t r hr
    cases hq : q.rid with
    | none =>
      rw [scanSource, hq] at hr
      exact ih t r hr
    | some x =>
      by_cases hx : x ∈ t
      · by_cases he : t.erase x = (∅ : Finset String)
        · rw [scanSource, hq] at hr
          simp only [if_pos hx, if_pos he, List.mem_singleton] at hr
          subst hr
          exact ⟨x, hq, hx⟩
        · rw [scanSource, hq] at hr
          simp only [if_pos hx, if_neg he] at hr
          rcases List.mem_cons.mp hr with h1 | h1
          · subst h1; exact ⟨x, hq, hx⟩
          · obtain ⟨y, h2, h3⟩ := ih (t.erase x) r h1
            exact ⟨y, h2, Finset.mem_of_mem_erase h3⟩
      · rw [scanSource, hq] at hr
        simp only [if_neg hx] at hr
        exact ih t r hr

lemma scan_subset : ∀ (s : List SourceRecord) (t : Finset String),
    (scanSource t s).2 ⊆ t := by
  intro s
  induction s with
  | nil => intro t; simp [scanSource]
  | cons q rs ih =>
    intro t
    cases hq : q.rid with
    | none => rw [scanSource, hq]; exact ih t
    | some x =>
      by_cases hx : x ∈ t
      · by_cases he : t.erase x = (∅ : Finset String)
        · rw [scanSource, hq]
          simp only [if_pos hx, if_pos he]
          exact Finset.erase_subset x t
        · rw [scanSource, hq]
          simp only [if_pos hx, if_neg he]
          exact (ih (t.erase x)).trans (Finset.erase_subset x t)
      · rw [scanSource, hq]
        simp only [if_neg hx]
        exact ih t

lemma scan_prefix_subset : ∀ (s1 : List SourceRecord) (t : Finset String)
    (s2 : List SourceRecord),
    (scanSource t (s1 ++ s2)).2 ⊆ (scanSource t s1).2 := by
  intro s1
  induction s1 with
  | nil =>
    intro t s2
    simp only [List.nil_append, scanSource]
    exact scan_subset s2 t
  | cons q rs ih =>
    intro t s2
    cases hq : q.rid with
    | none =>
      rw [List.cons_append, scanSource, hq, scanSource, hq]
      exact ih t s2
    | some x =>
      by_cases hx : x ∈ t
      · by_cases he : t.erase x = (∅ : Finset String)
        · rw [List.cons_append, scanSource, hq, scanSource, hq]
          simp only [if_pos hx, if_pos he]
          exact Finset.Subset.refl _
        · rw [List.cons_append, scanSource, hq, scanSource, hq]
          simp only [if_pos hx, if_neg he]
          exact ih (t.erase x) s2
      · rw [List.cons_append, scanSource, hq, scanSource, hq]
        simp only [if_neg hx]
        exact ih t s2

lemma scan_countP : ∀ (s : List SourceRecord) (t : Finset String) (x : String),
    (scanSource t s).1.countP (fun r => decide (r.rid = some x)) ≤ 1 := by
  intro s
  induction s with
  | nil => intro t x; simp [scanSource]
  | cons q rs ih =>
    intro t x
    cases hq : q.rid with
    | none => rw [scanSource, hq]; exact ih t x
    | some y =>
      by_cases hy : y ∈ t
      · by_cases he : t.erase y = (∅ : Finset String)
        · rw [scanSource, hq]
          simp only [if_pos hy, if_pos he, List.countP_cons, List.countP_nil]
          split <;> omega
        · rw [scanSource, hq]
          simp only [if_pos hy, if_neg he, List.countP_cons]
          by_cases hxy : y = x
          · subst hxy
            have hzero : (scanSource (t.erase y) rs).1.countP
                (fun r => decide (r.rid = some y)) = 0 := by
              rw [List.countP_eq_zero]
              intro r hr
              obtain ⟨z, h2, h3⟩ := scan_mem_rid rs (t.erase y) r hr
              have hzy : z ≠ y := Finset.ne_of_mem_erase h3
              simp [h2, hzy]
            rw [hzero]
            simp [hq]
          · have : (decide (q.rid = some x)) = false := by simp [hq, hxy]
            rw [this]
            simpa using ih (t.erase y) x
      · rw [scanSource, hq]
        simp only [if_neg hy]
        exact ih t x

lemma scan_find : ∀ (s : List SourceRecord) (t : Finset String) (r : SourceRecord),
    r ∈ (scanSource t s).1 →
    s.find? (fun q => decide (q.rid = r.rid)) = some r := by
  intro s
  induction s with
  | nil => intro t r hr; simp [scanSource] at hr
  | cons q rs ih =>
    intro t r hr
    cases hq : q.rid with
    | none =>
      rw [scanSource, hq] at hr
      obtain ⟨y, h2, _⟩ := scan_mem_rid rs t r hr
      have hb : decide (q.rid = r.rid) = false := by simp [hq, h2]
      simp only [List.find?_cons, hb]
      exact ih t r hr
    | some x =>
      by_cases hx : x ∈ t
      · by_cases he : t.erase x = (∅ : Finset String)
        · rw [scanSource, hq] at hr
          simp only [if_pos hx, if_pos he, List.mem_singleton] at hr
          subst hr
          simp [List.find?_cons]
        · rw [scanSource, hq] at hr
          simp only [if_pos hx, if_neg he] at hr
          rcases List.mem_cons.mp hr with h1 | h1
          · subst h1
            simp [List.find?_cons]
          · obtain ⟨y, h2, h3⟩ := scan_mem_rid rs (t.erase x) r h1
            have hyx : y ≠ x := Finset.ne_of_mem_erase h3
            have hb : decide (q.rid = r.rid) = false := by
              simp only [hq, h2, decide_eq_false_iff_not, Option.some.injEq]
              exact fun hxy => hyx hxy.symm
            simp only [List.find?_cons, hb]
            exact ih (t.erase x) r h1
      · rw [scanSource, hq] at hr
        simp only [if_neg hx] at hr
        obtain ⟨y, h2, h3⟩ := scan_mem_rid rs t r hr
        have hyx : y ≠ x := fun hyx => hx (hyx ▸ h3)
        have hb : decide (q.rid = r.rid) = false := by
          simp only [hq, h2, decide_eq_false_iff_not, Option.some.injEq]
          exact fun hxy => hyx hxy.symm
        simp only [List.find?_cons, hb]
        exact ih t r hr

/-- Claim C6: during the stream scan of one source the target-id set only
shrinks (after scanning any extension of a prefix the set is contained in
the set after the prefix, and in particular in the initial set), each id
produces at most one matched record, and a matched record is always the
first record of the stream carrying its id, so when the same id occurs
twice only the first occurrence produces a match and a merged record. -/
theorem c6_target_set_only_shrinks (targets : Finset String) (stream : List SourceRecord) :
    (∀ s1 s2, stream = s1 ++ s2 →
      (scanSource targets stream).2 ⊆ (scanSource targets s1).2) ∧
    (∀ x : String,
      (scanSource targets stream).1.countP (fun r => decide (r.rid = some x)) ≤ 1) ∧
    (∀ r ∈ (scanSource targets stream).1,
      stream.find? (fun q => decide (q.rid = r.rid)) = some r) := by
  refine ⟨?_, ?_, ?_⟩
  · intro s1 s2 hsplit
    rw [hsplit]
    exact scan_prefix_subset s1 targets s2
  · intro x
    exact scan_countP stream targets x
  · intro r hr
    exact scan_find stream targets r hr

/-- Claim C6 witness: on the concrete stream with the id "a" occurring
twice, scanning the whole stream leaves a set contained in the set left by
the first record alone, and at most one row is matched for "a". -/
theorem c6_witness :
    (scanSource {"a", "b"} [exR1, exR2, exR3]).2 ⊆ (scanSource {"a", "b"} [exR1]).2 ∧
    (scanSource {"a", "b"} [exR1, exR2, exR3]).1.countP
      (fun r => decide (r.rid = some "a")) ≤ 1 :=
  ⟨(c6_target_set_only_shrinks {"a", "b"} [exR1, exR2, exR3]).1 [exR1] [exR2, exR3] rfl,
   (c6_target_set_only_shrinks {"a", "b"} [exR1, exR2, exR3]).2.1 "a"⟩

lemma scan_empty_start : ∀ (s : List SourceRecord),
    scanSource (∅ : Finset String) s = ([], (∅ : Finset String)) := by
  intro s
  induction s with
  | nil => rfl
  | cons q rs ih =>
    cases hq : q.rid with
    | none => rw [scanSource, hq]; exact ih
    | some x =>
      rw [scanSource, hq]
      simp only [Finset.not_mem_empty, if_false]
      exact ih

/-- Claim C7: once a source's still-to-find set becomes empty the scan of
that source's stream stops immediately: if scanning a stream ends with the
empty set, appending any further records to the stream changes neither the
matched records nor the final set — no further streamed record is examined
or matched. -/
theorem c7_scan_stops_when_empty (targets : Finset String) :
    ∀ (s : List SourceRecord), (scanSource targets s).2 = (∅ : Finset String) →
      ∀ (s2 : List SourceRecord), scanSource targets (s ++ s2) = scanSource targets s := by
  intro s
  induction s generalizing targets with
  | nil =>
    intro hempty s2
    have : targets = (∅ : Finset String) := hempty
    subst this
    simp only [List.nil_append, scanSource]
    exact scan_empty_start s2
  | cons q rs ih =>
    intro hempty s2
    cases hq : q.rid with
    | none =>
      rw [scanSource, hq] at hempty
      rw [List.cons_append, scanSource, hq, scanSource, hq]
      exact ih targets hempty s2
    | some x =>
      by_cases hx : x ∈ targets
      · by_cases he : targets.erase x = (∅ : Finset String)
        · rw [List.cons_append, scanSource, hq, scanSource, hq]
          simp only [if_pos hx, if_pos he]
        · rw [scanSource, hq] at hempty
          simp only [if_pos hx, if_neg he] at hempty
          rw [List.cons_append, scanSource, hq, scanSource, hq]
          simp only [if_pos hx, if_neg he]
          rw [ih (targets.erase x) hempty s2]
      · rw [scanSource, hq] at hempty
        simp only [if_neg hx] at hempty
        rw [List.cons_append, scanSource, hq, scanSource, hq]
        simp only [if_neg hx]
        exact ih targets hempty s2

/-- Claim C7 witness: with target set {"a"}, the first record already
empties the set, and appending two further records leaves the scan result
unchanged. -/
theorem c7_witness :
    scanSource {"a"} ([exR1] ++ [exR2, exR3]) = scanSource {"a"} [exR1] :=
  c7_scan_stops_when_empty {"a"} [exR1] (by decide) [exR2, exR3]

lemma storeAnnot_fst (acc : (String → Option AnnotRecord) × (String → Finset String))
    (a : AnnotRecord) (x : String) :
    ((storeAnnot acc a).1 x).isSome ↔
      ((acc.1 x).isSome ∨
        (a.conversation_id = some x ∧ x ≠ "" ∧
          ∃ src, a.dataset_source = some src ∧ src ∈ DATASET_SOURCES)) := by
  cases hc : a.conversation_id with
  | none => simp [storeAnnot, hc]
  | some cid =>
    cases hs : a.dataset_source with
    | none => simp [storeAnnot, hc, hs]
    | some src =>
      by_cases hcond : cid ≠ "" ∧ src ∈ DATASET_SOURCES
      · simp only [storeAnnot, hc, hs, if_pos hcond]
        by_cases hx : x = cid
        · subst hx
          simp [hcond.1, hcond.2]
        · simp only [if_neg hx, Option.some.injEq]
          constructor
          · intro h
            exact Or.inl h
          · rintro (h | ⟨h1, _, _⟩)
            · exact h
            · exact absurd h1.symm hx
      · simp only [storeAnnot, hc, hs, if_neg hcond]
        constructor
        · intro h
          exact Or.inl h
        · rintro (h | ⟨h1, h2, src2, h3, h4⟩)
          · exact h
          · exfalso
            apply hcond
            injection h1 with h1e
            injection h3 with h3e
            constructor
            · rw [h1e]
              exact h2
            · rw [h3e]
              exact h4

lemma storeAnnot_snd (acc : (String → Option AnnotRecord) × (String → Finset String))
    (a : AnnotRecord) (x s : String) :
    (x ∈ (storeAnnot acc a).2 s) ↔
      ((x ∈ acc.2 s) ∨
        (a.conversation_id = some x ∧ x ≠ "" ∧
          a.dataset_source = some s ∧ s ∈ DATASET_SOURCES)) := by
  cases hc : a.conversation_id with
  | none => simp [storeAnnot, hc]
  | some cid =>
    cases hs : a.dataset_source with
    | none => simp [storeAnnot, hc, hs]
    | some src =>
      by_cases hcond : cid ≠ "" ∧ src ∈ DATASET_SOURCES
      · simp only [storeAnnot, hc, hs, if_pos hcond]
        by_cases hss : s = src
        · rw [if_pos hss, Finset.mem_insert]
          constructor
          · rintro (h | h)
            · refine Or.inr ⟨congrArg some h.symm, ?_, congrArg some hss.symm, ?_⟩
              · rw [h]
                exact hcond.1
              · rw [hss]
                exact hcond.2
            · exact Or.inl h
          · rintro (h | ⟨h1, _, _, _⟩)
            · exact Or.inr h
            · injection h1 with h1e
              exact Or.inl h1e.symm
        · rw [if_neg hss]
          constructor
          · intro h
            exact Or.inl h
          · rintro (h | ⟨_, _, h3, _⟩)
            · exact h
            · exfalso
              injection h3 with h3e
              exact hss h3e.symm
      · simp only [storeAnnot, hc, hs, if_neg hcond]
        constructor
        · intro h
          exact Or.inl h
        · rintro (h | ⟨h1, h2, h3, h4⟩)
          · exact h
          · exfalso
            apply hcond
            injection h1 with h1e
            injection h3 with h3e
            constructor
            · rw [h1e]
              exact h2
            · rw [h3e]
              exact h4

lemma loadAnnotsAux_spec : ∀ (es : List AnnotRecord)
    (acc : (String → Option AnnotRecord) × (String → Finset String)) (x s : String),
    ((((loadAnnotsAux acc es).1 x).isSome ↔
       ((acc.1 x).isSome ∨ ∃ a ∈ es, a.conversation_id = some x ∧ x ≠ "" ∧
         ∃ src, a.dataset_source = some src ∧ src ∈ DATASET_SOURCES)) ∧
     (x ∈ (loadAnnotsAux acc es).2 s ↔
       ((x ∈ acc.2 s) ∨ ∃ a ∈ es, a.conversation_id = some x ∧ x ≠ "" ∧
         a.dataset_source = some s ∧ s ∈ DATASET_SOURCES))) := by
  intro es
  induction es with
  | nil => intro acc x s; simp [loadAnnotsAux]
  | cons a rest ih =>
    intro acc x s
    constructor
    · rw [loadAnnotsAux, (ih (storeAnnot acc a) x s).1, storeAnnot_fst]
      simp only [List.mem_cons]
      constructor
      · rintro ((h | h) | ⟨b, hb, h⟩)
        · exact Or.inl h
        · exact Or.inr ⟨a, Or.inl rfl, h⟩
        · exact Or.inr ⟨b, Or.inr hb, h⟩
      · rintro (h | ⟨b, (rfl | hb), h⟩)
        · exact Or.inl (Or.inl h)
        · exact Or.inl (Or.inr h)
        · exact Or.inr ⟨b, hb, h⟩
    · rw [loadAnnotsAux, (ih (storeAnnot acc a) x s).2, storeAnnot_snd]
      simp only [List.mem_cons]
      constructor
      · rintro ((h | h) | ⟨b, hb, h⟩)
        · exact Or.inl h
        · exact Or.inr ⟨a, Or.inl rfl, h⟩
        · exact Or.inr ⟨b, Or.inr hb, h⟩
      · rintro (h | ⟨b, (rfl | hb), h⟩)
        · exact Or.inl (Or.inl h)
        · exact Or.inl (Or.inr h)
        · exact Or.inr ⟨b, hb, h⟩

/-- Claim C10: an annotation entry is stored in the index and added to its
source's target set iff its conversation id is present and truthy (a present
but empty id is dropped exactly like a missing one) and its source tag is a
known corpus tag: an id is in the index iff some entry of the stream carries
it with a non-empty value and a known source, and an id is in source s's
target set iff some entry carries it with a non-empty value and source tag
exactly s. -/
theorem c10_annotation_kept_iff (es : List AnnotRecord) (x s : String) :
    ((((loadAnnots es).1 x).isSome ↔
       ∃ a ∈ es, a.conversation_id = some x ∧ x ≠ "" ∧
         ∃ src, a.dataset_source = some src ∧ src ∈ DATASET_SOURCES) ∧
     (x ∈ (loadAnnots es).2 s ↔
       ∃ a ∈ es, a.conversation_id = some x ∧ x ≠ "" ∧
         a.dataset_source = some s ∧ s ∈ DATASET_SOURCES)) := by
  have h := loadAnnotsAux_spec es (fun _ => none, fun _ => (∅ : Finset String)) x s
  simpa using h

end HealthChat
